import Mathlib

/-!
Verification of the VRP MILP model builder and solution extractor:
the function `solve_vrp` of `FINAL_project.py` and of `module4.py`.

Numeric modelling: instance data and solver-returned variable values are
rationals.  The travel-time matrix (pairwise Euclidean distances computed
by numpy before the model is built) enters the constraint system and the
extractor as an explicit matrix argument `tt`, exactly as `travel_times`
is a finished dictionary by the time the constraints are emitted; every
statement below holds for an arbitrary matrix, hence in particular for
the Euclidean one.
-/

namespace VRP

/-- Problem instance of `solve_vrp`: `n` customers (nodes `1..n`, depot
`0`); `wts i` embeds `weights[i]` (0-based, so customer `c` weighs
`wts (c-1)`); `service i` embeds `service_times[i]`; `K` vehicles of
capacity `cap`; route-duration ceiling `tmax`; `tw i` embeds
`time_windows[i]` (0-based); `restricted` embeds `restricted_customers`. -/
structure Inst where
  n : ℕ
  wts : ℕ → ℚ
  service : ℕ → ℚ
  K : ℕ
  cap : ℚ
  tmax : ℚ
  tw : ℕ → ℚ × ℚ
  restricted : List (ℕ × ℕ × ℕ)

/-- Solver-returned values of the decision variables `x`, `y`, `d`, `z`. -/
structure Sol where
  x : ℕ → ℕ → ℕ → ℚ
  y : ℕ → ℕ → ℚ
  d : ℕ → ℕ → ℚ
  z : ℕ → ℕ → ℚ

/-- Sum of inbound arc values of node `i` for vehicle `k`:
`quicksum(x[j,i,k] for j in V if j != i)`. -/
def inflow (n : ℕ) (s : Sol) (i k : ℕ) : ℚ :=
  ∑ j in Finset.range (n+1), if j = i then 0 else s.x j i k

/-- Sum of outbound arc values of node `i` for vehicle `k`:
`quicksum(x[i,j,k] for j in V if j != i)`. -/
def outflow (n : ℕ) (s : Sol) (i k : ℕ) : ℚ :=
  ∑ j in Finset.range (n+1), if j = i then 0 else s.x i j k

/-- Outbound depot arcs of vehicle `k`:
`quicksum(x[0,j,k] for j in C)`. -/
def depotOut (n : ℕ) (s : Sol) (k : ℕ) : ℚ :=
  ∑ j in Finset.Icc 1 n, s.x 0 j k

/-- Inbound depot arcs of vehicle `k`:
`quicksum(x[j,0,k] for j in C)`. -/
def depotIn (n : ℕ) (s : Sol) (k : ℕ) : ℚ :=
  ∑ j in Finset.Icc 1 n, s.x j 0 k

/-- The Big-M constant of the source:
`M = 2 * sum(travel_times.values()) + 2 * sum(service_times)`.
`travel_times` holds one value per ordered pair `(i,j)` with `i != j`. -/
def bigM (n : ℕ) (tt : ℕ → ℕ → ℚ) (sv : ℕ → ℚ) : ℚ :=
  2 * (∑ i in Finset.range (n+1), ∑ j in Finset.range (n+1),
        if i = j then 0 else tt i j)
  + 2 * ∑ i in Finset.range (n+1), sv i

/-- Total travel time of the arc assignment:
the objective expression and also the `total_travel_time` reported on
success (`sum(travel_times[i,j] * x[i,j,k].X ...)`). -/
def travel_time_obj (inst : Inst) (tt : ℕ → ℕ → ℚ) (s : Sol) : ℚ :=
  ∑ i in Finset.range (inst.n+1), ∑ j in Finset.range (inst.n+1),
    ∑ k in Finset.range inst.K, if i = j then 0 else tt i j * s.x i j k

/-- `total_service_time`:
`sum(service_times[i] * sum(x[j,i,k].X for j in V for k in K if j != i) for i in C)`. -/
def total_service_time (inst : Inst) (s : Sol) : ℚ :=
  ∑ i in Finset.Icc 1 inst.n,
    inst.service i *
      ∑ j in Finset.range (inst.n+1), ∑ k in Finset.range inst.K,
        if j = i then 0 else s.x j i k

/-- Feasibility of a variable assignment for the model built by
`FINAL_project.solve_vrp`: variable domains (binary `x` and `z`,
nonnegative continuous `y` and `d`) and constraint families 1-11,
translated one for one from the source. -/
structure Feasible (inst : Inst) (tt : ℕ → ℕ → ℚ) (s : Sol) : Prop where
  /-- `x` is declared `GRB.BINARY`. -/
  xbin : ∀ i < inst.n+1, ∀ j < inst.n+1, ∀ k < inst.K, i ≠ j →
    s.x i j k = 0 ∨ s.x i j k = 1
  /-- `y` is continuous with the default lower bound 0. -/
  ynn : ∀ i < inst.n+1, ∀ k < inst.K, 0 ≤ s.y i k
  /-- `d` is continuous with the default lower bound 0. -/
  dnn : ∀ j < inst.n+1, ∀ k < inst.K, 0 ≤ s.d j k
  /-- `z` is declared `GRB.BINARY`. -/
  zbin : ∀ i < inst.n+1, 1 ≤ i → ∀ k < inst.K, s.z i k = 0 ∨ s.z i k = 1
  /-- Constraint 1: each customer is served exactly once. -/
  once : ∀ i < inst.n+1, 1 ≤ i →
    ∑ k in Finset.range inst.K, inflow inst.n s i k = 1
  /-- Constraint 2: flow conservation for customers. -/
  flow : ∀ i < inst.n+1, 1 ≤ i → ∀ k < inst.K,
    inflow inst.n s i k = outflow inst.n s i k
  /-- Constraint 3a: each vehicle starts and ends at the depot. -/
  depotBal : ∀ k < inst.K, depotOut inst.n s k = depotIn inst.n s k
  /-- Constraint 3b: each vehicle can exit the depot at most once. -/
  depotOnce : ∀ k < inst.K, depotOut inst.n s k ≤ 1
  /-- Constraint 4: vehicle capacity. -/
  capc : ∀ k < inst.K,
    ∑ i in Finset.Icc 1 inst.n, inst.wts (i-1) * inflow inst.n s i k ≤ inst.cap
  /-- Constraint 5: time propagation with Big-M (excluding depot returns). -/
  timeprop : ∀ k < inst.K, ∀ i < inst.n+1, ∀ j < inst.n+1, i ≠ j → j ≠ 0 →
    s.y i k + tt i j + inst.service i
      - bigM inst.n tt inst.service * (1 - s.x i j k) ≤ s.y j k
  /-- Constraint 6: route duration definition. -/
  dur : ∀ k < inst.K, ∀ j < inst.n+1, j ≠ 0 →
    s.y j k + inst.service j + tt j 0
      - bigM inst.n tt inst.service * (1 - s.x j 0 k) ≤ s.d j k
  /-- Constraint 7: initial departure from depot. -/
  anchor : ∀ k < inst.K, s.y 0 k = 0
  /-- Constraint 8: maximum route duration. -/
  maxdur : ∀ k < inst.K, ∀ j < inst.n+1, j ≠ 0 →
    s.d j k ≤ inst.tmax * s.x j 0 k
  /-- Constraint 9: assignment variables linked to route variables. -/
  link : ∀ i < inst.n+1, 1 ≤ i → ∀ k < inst.K, s.z i k = inflow inst.n s i k
  /-- Constraint 10a: time window lower bound. -/
  twlo : ∀ i < inst.n+1, 1 ≤ i → ∀ k < inst.K,
    (inst.tw (i-1)).1 * s.z i k ≤ s.y i k
  /-- Constraint 10b: time window upper bound. -/
  twhi : ∀ i < inst.n+1, 1 ≤ i → ∀ k < inst.K,
    s.y i k ≤ (inst.tw (i-1)).2 + bigM inst.n tt inst.service * (1 - s.z i k)
  /-- Constraint 11: customer service restrictions. -/
  restr : ∀ r ∈ inst.restricted, ∀ k < inst.K,
    s.z r.1 k + s.z r.2.1 k + s.z r.2.2 k ≤ 2

/-- Feasibility for the model built by `module4.solve_vrp`: all of the
above plus the forced-use constraint
(`quicksum(x[0,j,k] for j in C) == 1`, comment: "To force using all
available vehicles") and the workload-balancing variables `T`, `T_avg`,
`dev` with their linking constraints. -/
structure Feasible4 (inst : Inst) (tt : ℕ → ℕ → ℚ) (s : Sol)
    (T : ℕ → ℚ) (Tavg : ℚ) (dv : ℕ → ℚ) : Prop where
  base : Feasible inst tt s
  /-- `quicksum(x[0,j,k] for j in C) == 1` for every vehicle. -/
  forced : ∀ k < inst.K, depotOut inst.n s k = 1
  Tnn : ∀ k < inst.K, 0 ≤ T k
  Tavgnn : 0 ≤ Tavg
  devnn : ∀ k < inst.K, 0 ≤ dv k
  /-- `T[k] >= d[j,k]` for every customer `j`. -/
  Tlink : ∀ k < inst.K, ∀ j < inst.n+1, 1 ≤ j → s.d j k ≤ T k
  /-- `T_avg * num_vehicles == quicksum(T[k] for k in K)`. -/
  avg : Tavg * inst.K = ∑ k in Finset.range inst.K, T k
  devpos : ∀ k < inst.K, T k - Tavg ≤ dv k
  devneg : ∀ k < inst.K, Tavg - T k ≤ dv k

/-! ## The solution extractor -/

/-- One scan of the inner `for j in V` loop: the first `j` distinct from
the current node whose arc indicator exceeds the `0.5` threshold. -/
def nextNode (n : ℕ) (xv : ℕ → ℕ → ℕ → ℚ) (k cur : ℕ) : Option ℕ :=
  (List.range (n+1)).find? fun j => decide (j ≠ cur ∧ (1:ℚ)/2 < xv cur j k)

/-- The `while True` reconstruction loop, from the current node: returns
the remaining node sequence and the recorded start times (a time is
recorded only for non-depot nodes, as in the source).  The loop of the
source is unbounded; `fuel` is an explicit bound on the number of
iterations, and the callers below pass enough fuel for every execution
that a feasible assignment can produce. -/
def extendRoute (n : ℕ) (xv : ℕ → ℕ → ℕ → ℚ) (yv : ℕ → ℕ → ℚ) (k : ℕ) :
    ℕ → ℕ → List ℕ × List ℚ
  | 0, _ => ([], [])
  | fuel+1, cur =>
    match nextNode n xv k cur with
    | none => ([], [])
    | some j =>
      if j = 0 then ([0], [])
      else
        let p := extendRoute n xv yv k fuel j
        (j :: p.1, yv j k :: p.2)

/-- `any(x[0,j,k].X > 0.5 for j in C)`: vehicle `k` has a positive
outbound depot arc. -/
def usedB (n : ℕ) (xv : ℕ → ℕ → ℕ → ℚ) (k : ℕ) : Bool :=
  (List.range' 1 n).any fun j => decide ((1:ℚ)/2 < xv 0 j k)

/-- The reconstructed route of vehicle `k` (starts at the depot) and its
recorded start-time sequence (starts at `0.0`). -/
def routeTimes (inst : Inst) (s : Sol) (k : ℕ) : List ℕ × List ℚ :=
  let p := extendRoute inst.n s.x s.y k (inst.n+2) 0
  (0 :: p.1, (0:ℚ) :: p.2)

/-- The `routes` list: one route per vehicle with a positive outbound
depot arc, in increasing vehicle order. -/
def routes (inst : Inst) (s : Sol) : List (List ℕ) :=
  ((List.range inst.K).filter (usedB inst.n s.x)).map
    fun k => (routeTimes inst s k).1

/-- The `starting_times` list, aligned with `routes` by construction. -/
def starting_times (inst : Inst) (s : Sol) : List (List ℚ) :=
  ((List.range inst.K).filter (usedB inst.n s.x)).map
    fun k => (routeTimes inst s k).2

/-- Load of vehicle `k`:
`sum(weights[i-1] * sum(x[j,i,k].X for j in V if j != i) for i in C)`. -/
def loadOf (inst : Inst) (s : Sol) (k : ℕ) : ℚ :=
  ∑ i in Finset.Icc 1 inst.n, inst.wts (i-1) * inflow inst.n s i k

/-- The `vehicle_loads` list: loads of the vehicles whose load is
positive, in increasing vehicle order. -/
def vehicle_loads (inst : Inst) (s : Sol) : List ℚ :=
  ((List.range inst.K).filter fun k => decide (0 < loadOf inst s k)).map
    (loadOf inst s)

/-- Reported duration of vehicle `k`: the running maximum, over the
customers `j` whose closing arc `x[j,0,k]` exceeds the threshold, of
`y[j,k].X + service_times[j] + travel_times[j,0]`, starting from `0`. -/
def durOf (inst : Inst) (tt : ℕ → ℕ → ℚ) (s : Sol) (k : ℕ) : ℚ :=
  (List.range' 1 inst.n).foldl
    (fun acc j => if (1:ℚ)/2 < s.x j 0 k
      then max acc (s.y j k + inst.service j + tt j 0) else acc) 0

/-- The `route_durations` list: reported durations that are positive, in
increasing vehicle order. -/
def route_durations (inst : Inst) (tt : ℕ → ℕ → ℚ) (s : Sol) : List ℚ :=
  ((List.range inst.K).filter fun k => decide (0 < durOf inst tt s k)).map
    (durOf inst tt s)

/-! ## The returned record

The source returns a Python dict whose values have several types; it is
embedded as an association list over a sum type of values. -/

inductive Val where
  | str : String → Val
  | num : ℚ → Val
  | int : ℤ → Val
  | nat : ℕ → Val
  | routesV : List (List ℕ) → Val
  | timesV : List (List ℚ) → Val
  | numsV : List ℚ → Val
deriving DecidableEq

/-- The denominator of the `capacity_utilization` entry:
`len(routes) * vehicle_capacity`. -/
def utilDenom (inst : Inst) (s : Sol) : ℚ :=
  ((routes inst s).length : ℚ) * inst.cap

/-- The entries stored on `model.status == GRB.OPTIMAL` (both variants
build exactly these; `module4` appends three more). -/
def optimalEntries (inst : Inst) (tt : ℕ → ℕ → ℚ) (s : Sol) :
    List (String × Val) :=
  [("status", Val.str "Optimal"),
   ("total_travel_time", Val.num (travel_time_obj inst tt s)),
   ("total_service_time", Val.num (total_service_time inst s)),
   ("total_operational_time",
     Val.num (travel_time_obj inst tt s + total_service_time inst s)),
   ("routes", Val.routesV (routes inst s)),
   ("starting_times", Val.timesV (starting_times inst s)),
   ("vehicle_loads", Val.numsV (vehicle_loads inst s)),
   ("route_durations", Val.numsV (route_durations inst tt s)),
   ("vehicles_used", Val.nat (routes inst s).length),
   ("vehicles_available", Val.nat inst.K),
   ("capacity_utilization",
     Val.num ((vehicle_loads inst s).sum / utilDenom inst s))]

/-- The `solution_info` record of `FINAL_project.solve_vrp` as a function
of the terminal status (`GRB.OPTIMAL = 2`). -/
def solutionInfoFinal (inst : Inst) (tt : ℕ → ℕ → ℚ) (s : Sol)
    (status : ℤ) : List (String × Val) :=
  if status = 2 then optimalEntries inst tt s
  else [("status", Val.str "No optimal solution found"),
        ("model_status", Val.int status)]

/-- The `solution_info` record of `module4.solve_vrp`.  The
`max_deviation` entry folds `max` over the deviations from `0`; the
deviation variables carry the solver's default lower bound `0`, so for a
nonempty fleet this agrees with Python's `max(...)`. -/
def solutionInfo4 (inst : Inst) (tt : ℕ → ℕ → ℚ) (s : Sol)
    (Tavg : ℚ) (dv : ℕ → ℚ) (status : ℤ) : List (String × Val) :=
  if status = 2 then
    optimalEntries inst tt s ++
    [("avg_route_duration", Val.num Tavg),
     ("total_deviation", Val.num (∑ k in Finset.range inst.K, dv k)),
     ("max_deviation", Val.num (((List.range inst.K).map dv).foldl max 0))]
  else [("status", Val.str "No optimal solution found"),
        ("model_status", Val.int status)]

/-! ## The hierarchical objective configuration of `module4` -/

/-- The metadata of one `model.setObjectiveN(...)` call (the objective
expressions themselves are `travel_time_obj` and the sum of the `dev`
variables). -/
structure ObjSpec where
  oname : String
  objIndex : ℕ
  priority : ℕ
  reltol : ℚ
deriving DecidableEq

/-- The two `setObjectiveN` calls issued by `module4.solve_vrp` on any
input: the primary travel-time objective with priority `1` and
`reltol=0.05`, and the secondary workload-balance objective with
priority `0` (and the solver's default tolerance `0`). -/
def module4Objectives (_inst : Inst) : List ObjSpec :=
  [⟨"total_travel_time", 0, 1, 5/100⟩, ⟨"workload_balance", 1, 0, 0⟩]

/-! ## Degree lemmas

Consequences of feasibility about the thresholded arc relation
`1/2 < x[i,j,k]` that drive the correctness of the extractor. -/

section Degree

variable {inst : Inst} {tt : ℕ → ℕ → ℚ} {s : Sol}

lemma x_nonneg (hF : Feasible inst tt s) {i j k : ℕ} (hi : i < inst.n+1)
    (hj : j < inst.n+1) (hk : k < inst.K) (hij : i ≠ j) : 0 ≤ s.x i j k := by
  rcases hF.xbin i hi j hj k hk hij with h | h <;> norm_num [h]

lemma x_eq_one_of_half (hF : Feasible inst tt s) {i j k : ℕ}
    (hi : i < inst.n+1) (hj : j < inst.n+1) (hk : k < inst.K) (hij : i ≠ j)
    (h : (1:ℚ)/2 < s.x i j k) : s.x i j k = 1 := by
  rcases hF.xbin i hi j hj k hk hij with h0 | h1
  · rw [h0] at h; norm_num at h
  · exact h1

lemma inflow_nonneg (hF : Feasible inst tt s) {i k : ℕ} (hi : i < inst.n+1)
    (hk : k < inst.K) : 0 ≤ inflow inst.n s i k := by
  refine Finset.sum_nonneg fun j hj => ?_
  by_cases hji : j = i
  · simp [hji]
  · rw [if_neg hji]
    exact x_nonneg hF (Finset.mem_range.mp hj) hi hk hji

lemma inflow_le_one (hF : Feasible inst tt s) {i k : ℕ} (hi : i < inst.n+1)
    (h1 : 1 ≤ i) (hk : k < inst.K) : inflow inst.n s i k ≤ 1 := by
  have honce := hF.once i hi h1
  calc inflow inst.n s i k
      ≤ ∑ k' in Finset.range inst.K, inflow inst.n s i k' :=
        Finset.single_le_sum (fun k' hk' => inflow_nonneg hF hi (Finset.mem_range.mp hk'))
          (Finset.mem_range.mpr hk)
    _ = 1 := honce

lemma arc_le_inflow (hF : Feasible inst tt s) {a i k : ℕ} (ha : a < inst.n+1)
    (hi : i < inst.n+1) (hk : k < inst.K) (hai : a ≠ i) :
    s.x a i k ≤ inflow inst.n s i k := by
  have h := Finset.single_le_sum
    (f := fun j => if j = i then 0 else s.x j i k)
    (fun j hj => by
      by_cases hji : j = i
      · simp [hji]
      · simp only [if_neg hji]
        exact x_nonneg hF (Finset.mem_range.mp hj) hi hk hji)
    (Finset.mem_range.mpr ha)
  simp only [if_neg hai] at h
  exact h

/-- A customer has at most one inbound arc above threshold per vehicle
(indeed across all vehicles): uniqueness of the in-neighbor. -/
lemma in_neighbor_unique (hF : Feasible inst tt s) {i k a b : ℕ}
    (h1 : 1 ≤ i) (hi : i < inst.n+1) (hk : k < inst.K)
    (ha : a < inst.n+1) (hb : b < inst.n+1) (hai : a ≠ i) (hbi : b ≠ i)
    (hA : (1:ℚ)/2 < s.x a i k) (hB : (1:ℚ)/2 < s.x b i k) : a = b := by
  by_contra hab
  have hxa := x_eq_one_of_half hF ha hi hk hai hA
  have hxb := x_eq_one_of_half hF hb hi hk hbi hB
  have hsub : ({a, b} : Finset ℕ) ⊆ Finset.range (inst.n+1) := by
    intro t ht
    rcases Finset.mem_insert.mp ht with rfl | ht
    · exact Finset.mem_range.mpr ha
    · rw [Finset.mem_singleton.mp ht]; exact Finset.mem_range.mpr hb
  have h2 : (2:ℚ) ≤ inflow inst.n s i k := by
    have hle := Finset.sum_le_sum_of_subset_of_nonneg hsub
      (f := fun j => if j = i then 0 else s.x j i k)
      (fun j hj _ => by
        by_cases hji : j = i
        · simp [hji]
        · simp only [if_neg hji]
          exact x_nonneg hF (Finset.mem_range.mp hj) hi hk hji)
    rw [Finset.sum_pair hab] at hle
    simp only [if_neg hai, if_neg hbi, hxa, hxb] at hle
    have hle2 : (1:ℚ) + 1 ≤ inflow inst.n s i k := hle
    linarith
  have := inflow_le_one hF hi h1 hk
  linarith

/-- A visited customer (one with an inbound arc) has an outbound arc. -/
lemma out_arc_exists (hF : Feasible inst tt s) {i k : ℕ}
    (h1 : 1 ≤ i) (hi : i < inst.n+1) (hk : k < inst.K)
    (hin : ∃ p, p < inst.n+1 ∧ p ≠ i ∧ (1:ℚ)/2 < s.x p i k) :
    ∃ j, j < inst.n+1 ∧ j ≠ i ∧ (1:ℚ)/2 < s.x i j k := by
  obtain ⟨p, hp, hpi, hparc⟩ := hin
  have hxp := x_eq_one_of_half hF hp hi hk hpi hparc
  have hinfl : (1:ℚ) ≤ inflow inst.n s i k := by
    have := arc_le_inflow hF hp hi hk hpi
    rw [hxp] at this; exact this
  by_contra hno
  push_neg at hno
  have hout0 : outflow inst.n s i k = 0 := by
    refine Finset.sum_eq_zero fun j hj => ?_
    by_cases hji : j = i
    · simp [hji]
    · rw [if_neg hji]
      have hj' := Finset.mem_range.mp hj
      rcases hF.xbin i hi j hj' k hk (fun h => hji h.symm) with h0 | h1
      · exact h0
      · exfalso
        have := hno j hj' hji
        rw [h1] at this; norm_num at this
  rw [hF.flow i hi h1 k hk, hout0] at hinfl
  norm_num at hinfl

lemma depotOut_nonneg (hF : Feasible inst tt s) {k : ℕ} (hk : k < inst.K) :
    0 ≤ depotOut inst.n s k := by
  refine Finset.sum_nonneg fun j hj => ?_
  obtain ⟨hj1, hjn⟩ := Finset.mem_Icc.mp hj
  exact x_nonneg hF (Nat.lt_succ_of_le (Nat.zero_le _)) (Nat.lt_succ_of_le hjn) hk
    (by omega)

lemma arc_le_depotOut (hF : Feasible inst tt s) {j k : ℕ}
    (hj1 : 1 ≤ j) (hjn : j ≤ inst.n) (hk : k < inst.K) :
    s.x 0 j k ≤ depotOut inst.n s k := by
  refine Finset.single_le_sum (f := fun j' => s.x 0 j' k)
    (fun j' hj' => ?_) (Finset.mem_Icc.mpr ⟨hj1, hjn⟩)
  obtain ⟨h1, h2⟩ := Finset.mem_Icc.mp hj'
  exact x_nonneg hF (by omega) (by omega) hk (by omega)

lemma arc_le_depotIn (hF : Feasible inst tt s) {j k : ℕ}
    (hj1 : 1 ≤ j) (hjn : j ≤ inst.n) (hk : k < inst.K) :
    s.x j 0 k ≤ depotIn inst.n s k := by
  refine Finset.single_le_sum (f := fun j' => s.x j' 0 k)
    (fun j' hj' => ?_) (Finset.mem_Icc.mpr ⟨hj1, hjn⟩)
  obtain ⟨h1, h2⟩ := Finset.mem_Icc.mp hj'
  exact x_nonneg hF (by omega) (by omega) hk (by omega)

/-- A vehicle with a positive outbound depot arc has a closing arc back
to the depot. -/
lemma closing_arc_of_used (hF : Feasible inst tt s) {k : ℕ} (hk : k < inst.K)
    (h : ∃ j, 1 ≤ j ∧ j ≤ inst.n ∧ (1:ℚ)/2 < s.x 0 j k) :
    ∃ j, 1 ≤ j ∧ j ≤ inst.n ∧ (1:ℚ)/2 < s.x j 0 k := by
  obtain ⟨j, hj1, hjn, harc⟩ := h
  have hx1 := x_eq_one_of_half hF (Nat.lt_succ_of_le (Nat.zero_le _))
    (by omega) hk (by omega) harc
  have hout : (1:ℚ) ≤ depotOut inst.n s k := by
    have := arc_le_depotOut hF hj1 hjn hk
    rw [hx1] at this; exact this
  have hin : (1:ℚ) ≤ depotIn inst.n s k := by
    rw [← hF.depotBal k hk]; exact hout
  by_contra hno
  push_neg at hno
  have : depotIn inst.n s k = 0 := by
    refine Finset.sum_eq_zero fun j' hj' => ?_
    obtain ⟨h1, h2⟩ := Finset.mem_Icc.mp hj'
    rcases hF.xbin j' (by omega) 0 (by omega) k hk (by omega) with h0 | hx
    · exact h0
    · exfalso
      have := hno j' h1 h2
      rw [hx] at this; norm_num at this
  rw [this] at hin; norm_num at hin

/-- At most one closing arc per vehicle: uniqueness of the last customer
before the return to the depot. -/
lemma closing_arc_unique (hF : Feasible inst tt s) {k a b : ℕ}
    (hk : k < inst.K) (ha1 : 1 ≤ a) (han : a ≤ inst.n)
    (hb1 : 1 ≤ b) (hbn : b ≤ inst.n)
    (hA : (1:ℚ)/2 < s.x a 0 k) (hB : (1:ℚ)/2 < s.x b 0 k) : a = b := by
  by_contra hab
  have hxa := x_eq_one_of_half hF (by omega) (by omega) hk (by omega) hA
  have hxb := x_eq_one_of_half hF (by omega) (by omega) hk (by omega) hB
  have hsub : ({a, b} : Finset ℕ) ⊆ Finset.Icc 1 inst.n := by
    intro t ht
    rcases Finset.mem_insert.mp ht with rfl | ht
    · exact Finset.mem_Icc.mpr ⟨ha1, han⟩
    · rw [Finset.mem_singleton.mp ht]; exact Finset.mem_Icc.mpr ⟨hb1, hbn⟩
  have h2 : (2:ℚ) ≤ depotIn inst.n s k := by
    have hle := Finset.sum_le_sum_of_subset_of_nonneg hsub
      (f := fun j' => s.x j' 0 k)
      (fun j' hj' _ => by
        obtain ⟨h1, h2⟩ := Finset.mem_Icc.mp hj'
        exact x_nonneg hF (by omega) (by omega) hk (by omega))
    rw [Finset.sum_pair hab] at hle
    simp only [hxa, hxb] at hle
    have hle2 : (1:ℚ) + 1 ≤ depotIn inst.n s k := hle
    linarith
  have hbal := hF.depotBal k hk
  have honce := hF.depotOnce k hk
  rw [hbal] at honce
  linarith

/-- A vehicle with a positive inbound depot arc is used. -/
lemma used_of_closing_arc (hF : Feasible inst tt s) {k : ℕ} (hk : k < inst.K)
    (h : ∃ j, 1 ≤ j ∧ j ≤ inst.n ∧ (1:ℚ)/2 < s.x j 0 k) :
    ∃ j, 1 ≤ j ∧ j ≤ inst.n ∧ (1:ℚ)/2 < s.x 0 j k := by
  obtain ⟨j, hj1, hjn, harc⟩ := h
  have hx1 := x_eq_one_of_half hF (i := j) (by omega) (by omega) hk (by omega) harc
  have hin : (1:ℚ) ≤ depotIn inst.n s k := by
    have := arc_le_depotIn hF hj1 hjn hk
    rw [hx1] at this; exact this
  have hout : (1:ℚ) ≤ depotOut inst.n s k := by
    rw [hF.depotBal k hk]; exact hin
  by_contra hno
  push_neg at hno
  have : depotOut inst.n s k = 0 := by
    refine Finset.sum_eq_zero fun j' hj' => ?_
    obtain ⟨h1, h2⟩ := Finset.mem_Icc.mp hj'
    rcases hF.xbin 0 (by omega) j' (by omega) k hk (by omega) with h0 | hx
    · exact h0
    · exfalso
      have := hno j' h1 h2
      rw [hx] at this; norm_num at this
  rw [this] at hout; norm_num at hout

end Degree

/-! ## Behaviour of the reconstruction loop -/

section Traversal

lemma nextNode_some {n : ℕ} {xv : ℕ → ℕ → ℕ → ℚ} {k cur j : ℕ}
    (h : nextNode n xv k cur = some j) :
    j < n+1 ∧ j ≠ cur ∧ (1:ℚ)/2 < xv cur j k := by
  have hmem := List.mem_of_find?_eq_some h
  have hpred := List.find?_some h
  simp only [decide_eq_true_eq] at hpred
  exact ⟨List.mem_range.mp hmem, hpred.1, hpred.2⟩

lemma nextNode_none {n : ℕ} {xv : ℕ → ℕ → ℕ → ℚ} {k cur : ℕ}
    (h : nextNode n xv k cur = none) :
    ∀ j, j < n+1 → j ≠ cur → ¬ ((1:ℚ)/2 < xv cur j k) := by
  intro j hj hne hgt
  have := List.find?_eq_none.mp h j (List.mem_range.mpr hj)
  simp only [decide_eq_true_eq] at this
  exact this ⟨hne, hgt⟩

lemma nextNode_isSome {n : ℕ} {xv : ℕ → ℕ → ℕ → ℚ} {k cur : ℕ}
    (h : ∃ j, j < n+1 ∧ j ≠ cur ∧ (1:ℚ)/2 < xv cur j k) :
    ∃ j, nextNode n xv k cur = some j := by
  cases hn : nextNode n xv k cur with
  | some j => exact ⟨j, rfl⟩
  | none =>
    obtain ⟨j, hj, hne, hgt⟩ := h
    exact absurd hgt (nextNode_none hn j hj hne)

variable {inst : Inst} {tt : ℕ → ℕ → ℚ} {s : Sol}

/-- Core invariant argument: started at a customer whose inbound arcs all
come from the already-visited region, the reconstruction loop always
terminates by following an arc back to the depot (so the produced suffix
is nonempty and ends with `0`), provided the fuel dominates the number of
unvisited customers. -/
lemma extend_reaches_depot (hF : Feasible inst tt s) {k : ℕ}
    (hk : k < inst.K) :
    ∀ fuel (cur : ℕ) (vis : Finset ℕ),
      1 ≤ cur → cur < inst.n+1 → cur ∉ vis →
      vis ⊆ Finset.Icc 1 inst.n →
      (∀ i j, i < inst.n+1 → j < inst.n+1 → i ≠ j → (j ∈ vis ∨ j = cur) →
        (1:ℚ)/2 < s.x i j k → i = 0 ∨ i ∈ vis) →
      (∃ p, p < inst.n+1 ∧ p ≠ cur ∧ (1:ℚ)/2 < s.x p cur k) →
      inst.n + 1 - vis.card ≤ fuel →
      (extendRoute inst.n s.x s.y k fuel cur).1 ≠ [] ∧
        (extendRoute inst.n s.x s.y k fuel cur).1.getLast? = some 0 := by
  intro fuel
  induction fuel with
  | zero =>
    intro cur vis h1 h2 h3 hsub hP2 hP3 hfuel
    exfalso
    have hcard : vis.card ≤ inst.n := by
      have := Finset.card_le_card hsub
      rwa [Nat.card_Icc, Nat.add_sub_cancel] at this
    omega
  | succ fuel ih =>
    intro cur vis h1 h2 h3 hsub hP2 hP3 hfuel
    obtain ⟨j₀, hj₀⟩ := nextNode_isSome (out_arc_exists hF h1 h2 hk hP3)
    obtain ⟨hj₀lt, hj₀ne, hj₀arc⟩ := nextNode_some hj₀
    by_cases hz : j₀ = 0
    · constructor <;> simp [extendRoute, hj₀, hz]
    · have hj₀1 : 1 ≤ j₀ := Nat.one_le_iff_ne_zero.mpr hz
      have hcur0 : cur ≠ 0 := by omega
      have hfresh : j₀ ∉ vis := by
        intro hmem
        rcases hP2 cur j₀ h2 hj₀lt (fun h => hj₀ne h.symm) (Or.inl hmem) hj₀arc
          with h0 | hcv
        · exact hcur0 h0
        · exact h3 hcv
      have hstep := ih j₀ (insert cur vis) hj₀1 hj₀lt
        (by
          rw [Finset.mem_insert]
          rintro (h | h)
          · exact hj₀ne h
          · exact hfresh h)
        (by
          intro t ht
          rcases Finset.mem_insert.mp ht with rfl | ht
          · exact Finset.mem_Icc.mpr ⟨h1, by omega⟩
          · exact hsub ht)
        (by
          intro i j hi hj hij hjmem harc
          rcases hjmem with hj' | rfl
          · rcases Finset.mem_insert.mp hj' with rfl | hjv
            · rcases hP2 i j hi hj hij (Or.inr rfl) harc with h0 | hv
              · exact Or.inl h0
              · exact Or.inr (Finset.mem_insert_of_mem hv)
            · rcases hP2 i j hi hj hij (Or.inl hjv) harc with h0 | hv
              · exact Or.inl h0
              · exact Or.inr (Finset.mem_insert_of_mem hv)
          · have := in_neighbor_unique hF hj₀1 hj₀lt hk hi h2 hij
              (fun h => hj₀ne h.symm) harc hj₀arc
            exact Or.inr (this ▸ Finset.mem_insert_self cur vis))
        ⟨cur, h2, fun h => hj₀ne h.symm, hj₀arc⟩
        (by
          rw [Finset.card_insert_of_not_mem h3]
          omega)
      obtain ⟨hne, hlast⟩ := hstep
      refine ⟨?_, ?_⟩
      · simp [extendRoute, hj₀, hz]
      · cases hp : (extendRoute inst.n s.x s.y k fuel j₀).1 with
        | nil => exact absurd hp hne
        | cons b tl =>
          rw [hp] at hlast
          simp only [extendRoute, hj₀, if_neg hz, hp]
          rw [List.getLast?_cons_cons]
          exact hlast

lemma usedB_iff {n : ℕ} {xv : ℕ → ℕ → ℕ → ℚ} {k : ℕ} :
    usedB n xv k = true ↔ ∃ j, 1 ≤ j ∧ j ≤ n ∧ (1:ℚ)/2 < xv 0 j k := by
  unfold usedB
  rw [List.any_eq_true]
  constructor
  · rintro ⟨j, hmem, hp⟩
    rw [List.mem_range'_1] at hmem
    simp only [decide_eq_true_eq] at hp
    exact ⟨j, hmem.1, by omega, hp⟩
  · rintro ⟨j, h1, h2, hp⟩
    exact ⟨j, List.mem_range'_1.mpr ⟨h1, by omega⟩, by simpa using hp⟩

/-- A used vehicle's reconstructed route is nonempty, starts at the depot
and ends at the depot. -/
lemma route_closed_of_used (hF : Feasible inst tt s) {k : ℕ}
    (hk : k < inst.K) (hu : usedB inst.n s.x k = true) :
    (routeTimes inst s k).1 ≠ [] ∧ (routeTimes inst s k).1.head? = some 0 ∧
      (routeTimes inst s k).1.getLast? = some 0 := by
  obtain ⟨j, hj1, hjn, harc⟩ := usedB_iff.mp hu
  have hex : ∃ j', j' < inst.n+1 ∧ j' ≠ 0 ∧ (1:ℚ)/2 < s.x 0 j' k :=
    ⟨j, by omega, by omega, harc⟩
  obtain ⟨j₀, hj₀⟩ := nextNode_isSome hex
  obtain ⟨hj₀lt, hj₀ne, hj₀arc⟩ := nextNode_some hj₀
  have hj₀1 : 1 ≤ j₀ := Nat.one_le_iff_ne_zero.mpr hj₀ne
  have hmain := extend_reaches_depot hF hk (inst.n+1) j₀ ∅ hj₀1 hj₀lt
    (Finset.not_mem_empty _) (Finset.empty_subset _)
    (by
      intro i j' hi hj' hij' hjmem harc'
      rcases hjmem with h | rfl
      · exact absurd h (Finset.not_mem_empty _)
      · exact Or.inl (in_neighbor_unique hF hj₀1 hj₀lt hk hi (by omega)
          hij' (fun h => hj₀ne h.symm) harc' hj₀arc))
    ⟨0, by omega, fun h => hj₀ne h.symm, hj₀arc⟩
    (by simp)
  obtain ⟨hne, hlast⟩ := hmain
  have hunfold : (routeTimes inst s k).1 =
      0 :: j₀ :: (extendRoute inst.n s.x s.y k (inst.n+1) j₀).1 := by
    show (0 :: (extendRoute inst.n s.x s.y k ((inst.n+1)+1) 0).1) = _
    simp only [extendRoute, hj₀, if_neg hj₀ne]
  refine ⟨by rw [hunfold]; simp, by rw [hunfold]; rfl, ?_⟩
  rw [hunfold]
  cases hp : (extendRoute inst.n s.x s.y k (inst.n+1) j₀).1 with
  | nil => exact absurd hp hne
  | cons b tl =>
    rw [hp] at hlast
    rw [List.getLast?_cons_cons, List.getLast?_cons_cons]
    exact hlast

end Traversal

/-! ## Folded-maximum lemmas for the reported route duration -/

section FoldMax

variable (p : ℕ → Prop) [DecidablePred p] (f : ℕ → ℚ)

lemma foldl_max_init_le :
    ∀ (l : List ℕ) (a : ℚ),
      a ≤ l.foldl (fun acc j => if p j then max acc (f j) else acc) a := by
  intro l
  induction l with
  | nil => intro a; exact le_refl a
  | cons b tl ih =>
    intro a
    simp only [List.foldl_cons]
    refine le_trans ?_ (ih _)
    by_cases hb : p b
    · rw [if_pos hb]; exact le_max_left _ _
    · rw [if_neg hb]

lemma le_foldl_max_of_mem {j : ℕ} :
    ∀ (l : List ℕ), j ∈ l → p j → ∀ a : ℚ,
      f j ≤ l.foldl (fun acc j' => if p j' then max acc (f j') else acc) a := by
  intro l
  induction l with
  | nil => intro h; cases h
  | cons b tl ih =>
    intro hmem hp a
    simp only [List.foldl_cons]
    rcases List.mem_cons.mp hmem with rfl | htl
    · refine le_trans ?_ (foldl_max_init_le p f tl _)
      rw [if_pos hp]; exact le_max_right _ _
    · exact ih htl hp _

lemma foldl_max_eq_of_none :
    ∀ (l : List ℕ), (∀ j ∈ l, ¬ p j) → ∀ a : ℚ,
      l.foldl (fun acc j => if p j then max acc (f j) else acc) a = a := by
  intro l
  induction l with
  | nil => intro _ a; rfl
  | cons b tl ih =>
    intro h a
    simp only [List.foldl_cons, if_neg (h b (List.mem_cons_self b tl))]
    exact ih (fun j hj => h j (List.mem_cons_of_mem b hj)) a

lemma foldl_max_le (B : ℚ) :
    ∀ (l : List ℕ), (∀ j ∈ l, p j → f j ≤ B) → ∀ a : ℚ, a ≤ B →
      l.foldl (fun acc j => if p j then max acc (f j) else acc) a ≤ B := by
  intro l
  induction l with
  | nil => intro _ a ha; exact ha
  | cons b tl ih =>
    intro h a ha
    simp only [List.foldl_cons]
    refine ih (fun j hj hp => h j (List.mem_cons_of_mem b hj) hp) _ ?_
    by_cases hb : p b
    · rw [if_pos hb]
      exact max_le ha (h b (List.mem_cons_self b tl) hb)
    · rw [if_neg hb]; exact ha

end FoldMax

/-! ## Claims about the constraint families -/

/-- Claim C2: for every restriction triple `(i,j,l)` of the input and
every vehicle `k`, a feasible assignment satisfies
`z[i,k] + z[j,k] + z[l,k] <= 2`, hence never has all three assignment
indicators (equivalently, for valid indices, all three inbound-arc sums)
equal to one for the same vehicle. -/
theorem C2_restriction_enforced (inst : Inst) (tt : ℕ → ℕ → ℚ) (s : Sol)
    (hF : Feasible inst tt s) :
    ∀ r ∈ inst.restricted, ∀ k < inst.K,
      s.z r.1 k + s.z r.2.1 k + s.z r.2.2 k ≤ 2 ∧
      ¬ (s.z r.1 k = 1 ∧ s.z r.2.1 k = 1 ∧ s.z r.2.2 k = 1) ∧
      (1 ≤ r.1 → r.1 ≤ inst.n → 1 ≤ r.2.1 → r.2.1 ≤ inst.n →
       1 ≤ r.2.2 → r.2.2 ≤ inst.n →
        ¬ (inflow inst.n s r.1 k = 1 ∧ inflow inst.n s r.2.1 k = 1 ∧
            inflow inst.n s r.2.2 k = 1)) := by
  intro r hr k hk
  have hsum := hF.restr r hr k hk
  refine ⟨hsum, ?_, ?_⟩
  · rintro ⟨h1, h2, h3⟩
    rw [h1, h2, h3] at hsum
    norm_num at hsum
  · intro hi1 hin hj1 hjn hl1 hln
    rintro ⟨h1, h2, h3⟩
    rw [hF.link r.1 (by omega) hi1 k hk, h1,
        hF.link r.2.1 (by omega) hj1 k hk, h2,
        hF.link r.2.2 (by omega) hl1 k hk, h3] at hsum
    norm_num at hsum

/-- Claim C4 (amended): for every feasible assignment and used vehicle
`k`, the closing customer `j` (with `x[j,0,k]` above threshold) is
unique, and the duration the extractor reports is
`max 0 (y[j,k] + service[j] + travel[j,0])` — recomputed from `y`, not
read from `d[j,k]`, of which it is only a lower bound. -/
theorem C4_duration_from_y (inst : Inst) (tt : ℕ → ℕ → ℚ) (s : Sol)
    (hF : Feasible inst tt s) (k : ℕ) (hk : k < inst.K)
    (j : ℕ) (hj1 : 1 ≤ j) (hjn : j ≤ inst.n)
    (harc : (1:ℚ)/2 < s.x j 0 k) :
    (∀ j', 1 ≤ j' → j' ≤ inst.n → (1:ℚ)/2 < s.x j' 0 k → j' = j) ∧
    durOf inst tt s k = max 0 (s.y j k + inst.service j + tt j 0) ∧
    s.y j k + inst.service j + tt j 0 ≤ s.d j k := by
  have huniq : ∀ j', 1 ≤ j' → j' ≤ inst.n → (1:ℚ)/2 < s.x j' 0 k → j' = j :=
    fun j' h1 h2 h' => closing_arc_unique hF hk h1 h2 hj1 hjn h' harc
  refine ⟨huniq, ?_, ?_⟩
  · refine le_antisymm ?_ ?_
    · refine foldl_max_le (fun j' => (1:ℚ)/2 < s.x j' 0 k)
        (fun j' => s.y j' k + inst.service j' + tt j' 0) _
        (List.range' 1 inst.n) ?_ 0 (le_max_left _ _)
      intro j' hmem hp
      obtain ⟨h1, h2⟩ := List.mem_range'_1.mp hmem
      rw [huniq j' h1 (by omega) hp]
      exact le_max_right _ _
    · refine max_le ?_ ?_
      · exact foldl_max_init_le (fun j' => (1:ℚ)/2 < s.x j' 0 k)
          (fun j' => s.y j' k + inst.service j' + tt j' 0)
          (List.range' 1 inst.n) 0
      · exact le_foldl_max_of_mem (fun j' => (1:ℚ)/2 < s.x j' 0 k)
          (fun j' => s.y j' k + inst.service j' + tt j' 0)
          (List.range' 1 inst.n)
          (List.mem_range'_1.mpr ⟨hj1, by omega⟩) harc 0
  · have hx1 := x_eq_one_of_half hF (i := j) (by omega) (by omega) hk
      (by omega) harc
    have hd := hF.dur k hk j (by omega) (by omega)
    rw [hx1] at hd
    have hz : (1:ℚ) - 1 = 0 := by norm_num
    rw [hz, mul_zero, sub_zero] at hd
    exact hd

/-- Claim C6: on every terminal status other than OPTIMAL (`2`), both
variants return only the failure status string and the raw solver code,
with none of the routing keys present; the extraction entries are built
only in the OPTIMAL branch. -/
theorem C6_failure_record (inst : Inst) (tt : ℕ → ℕ → ℚ) (s : Sol)
    (Tavg : ℚ) (dv : ℕ → ℚ) (status : ℤ) (hs : status ≠ 2) :
    solutionInfoFinal inst tt s status =
      [("status", Val.str "No optimal solution found"),
       ("model_status", Val.int status)] ∧
    solutionInfo4 inst tt s Tavg dv status =
      [("status", Val.str "No optimal solution found"),
       ("model_status", Val.int status)] ∧
    (∀ v, ("routes", v) ∉ solutionInfoFinal inst tt s status) ∧
    (∀ v, ("starting_times", v) ∉ solutionInfoFinal inst tt s status) ∧
    (∀ v, ("vehicle_loads", v) ∉ solutionInfoFinal inst tt s status) ∧
    (∀ v, ("route_durations", v) ∉ solutionInfoFinal inst tt s status) ∧
    (∀ v, ("capacity_utilization", v) ∉ solutionInfoFinal inst tt s status) ∧
    (∀ v, ("routes", v) ∉ solutionInfo4 inst tt s Tavg dv status) := by
  unfold solutionInfoFinal solutionInfo4
  rw [if_neg hs, if_neg hs]
  refine ⟨rfl, rfl, ?_, ?_, ?_, ?_, ?_, ?_⟩ <;> intro v <;> simp

/-- Claim C7: the constant used in the time-propagation, route-duration
and time-window constraints of a feasible assignment is exactly twice
the sum of all pairwise travel times plus twice the sum of all service
times. -/
theorem C7_bigM_formula (inst : Inst) (tt : ℕ → ℕ → ℚ) (s : Sol)
    (hF : Feasible inst tt s) :
    bigM inst.n tt inst.service =
      2 * (∑ i in Finset.range (inst.n+1), ∑ j in Finset.range (inst.n+1),
            if i = j then 0 else tt i j)
      + 2 * ∑ i in Finset.range (inst.n+1), inst.service i ∧
    ∀ k < inst.K,
      (∀ i < inst.n+1, ∀ j < inst.n+1, i ≠ j → j ≠ 0 →
        s.y i k + tt i j + inst.service i
          - (2 * (∑ a in Finset.range (inst.n+1), ∑ b in Finset.range (inst.n+1),
                if a = b then 0 else tt a b)
             + 2 * ∑ a in Finset.range (inst.n+1), inst.service a)
            * (1 - s.x i j k) ≤ s.y j k) ∧
      (∀ j < inst.n+1, j ≠ 0 →
        s.y j k + inst.service j + tt j 0
          - (2 * (∑ a in Finset.range (inst.n+1), ∑ b in Finset.range (inst.n+1),
                if a = b then 0 else tt a b)
             + 2 * ∑ a in Finset.range (inst.n+1), inst.service a)
            * (1 - s.x j 0 k) ≤ s.d j k) ∧
      (∀ i < inst.n+1, 1 ≤ i →
        s.y i k ≤ (inst.tw (i-1)).2
          + (2 * (∑ a in Finset.range (inst.n+1), ∑ b in Finset.range (inst.n+1),
                if a = b then 0 else tt a b)
             + 2 * ∑ a in Finset.range (inst.n+1), inst.service a)
            * (1 - s.z i k)) := by
  refine ⟨rfl, fun k hk => ⟨hF.timeprop k hk, hF.dur k hk, ?_⟩⟩
  intro i hi h1
  exact hF.twhi i hi h1 k hk

/-- Claim C8 (amended): both variants constrain, per vehicle, the
outbound depot arcs to equal the inbound depot arcs; `FINAL_project`
bounds them by one (so an unused vehicle is a feasible state), while
`module4` additionally forces them to equal exactly one, so every
vehicle must be used. -/
theorem C8_depot_flow_amended :
    (∀ (inst : Inst) (tt : ℕ → ℕ → ℚ) (s : Sol), Feasible inst tt s →
      ∀ k < inst.K,
        depotOut inst.n s k = depotIn inst.n s k ∧
        depotOut inst.n s k ≤ 1) ∧
    (∀ (inst : Inst) (tt : ℕ → ℕ → ℚ) (s : Sol) (T : ℕ → ℚ) (Tavg : ℚ)
        (dv : ℕ → ℚ), Feasible4 inst tt s T Tavg dv →
      ∀ k < inst.K,
        depotOut inst.n s k = depotIn inst.n s k ∧
        depotOut inst.n s k = 1) :=
  ⟨fun _ _ _ hF k hk => ⟨hF.depotBal k hk, hF.depotOnce k hk⟩,
   fun _ _ _ _ _ _ h4 k hk => ⟨h4.base.depotBal k hk, h4.forced k hk⟩⟩

/-- Claim C9 (amended): on every input, `module4` issues the same two
`setObjectiveN` calls — priority `1` with relative tolerance `0.05` for
the travel-time objective and priority `0` for the balance objective —
as hardcoded constants, independent of the solve call's inputs. -/
theorem C9_objective_constants (inst : Inst) :
    module4Objectives inst =
      [⟨"total_travel_time", 0, 1, 5/100⟩, ⟨"workload_balance", 1, 0, 0⟩] :=
  rfl

/-! ## Alignment of the four reported lists (claim C10) -/

/-- Every vehicle that serves some customer departs the depot: rules out
depot-free subtours (cycles of zero total travel-plus-service length,
which the model admits and which misalign `vehicle_loads` with
`routes`). -/
def ServesImpliesDeparts (inst : Inst) (s : Sol) : Prop :=
  ∀ k < inst.K,
    (∃ i < inst.n+1, 1 ≤ i ∧ ∃ j < inst.n+1, j ≠ i ∧
        (1:ℚ)/2 < s.x j i k) →
    ∃ j < inst.n+1, 1 ≤ j ∧ (1:ℚ)/2 < s.x 0 j k

section Alignment

variable {inst : Inst} {tt : ℕ → ℕ → ℚ} {s : Sol}

lemma load_pos_of_used (hF : Feasible inst tt s)
    (posw : ∀ i < inst.n, 0 < inst.wts i) {k : ℕ} (hk : k < inst.K)
    (hu : usedB inst.n s.x k = true) : 0 < loadOf inst s k := by
  obtain ⟨j, hj1, hjn, harc⟩ := usedB_iff.mp hu
  have hx1 := x_eq_one_of_half hF (i := 0) (by omega) (by omega) hk
    (by omega) harc
  have hinfl : (1:ℚ) ≤ inflow inst.n s j k := by
    have := arc_le_inflow hF (a := 0) (i := j) (by omega) (by omega) hk
      (by omega)
    rwa [hx1] at this
  have hwpos : 0 < inst.wts (j-1) := posw (j-1) (by omega)
  have h2 : inst.wts (j-1) ≤ inst.wts (j-1) * inflow inst.n s j k :=
    le_mul_of_one_le_right hwpos.le hinfl
  have h3 : inst.wts (j-1) * inflow inst.n s j k ≤ loadOf inst s k := by
    refine Finset.single_le_sum (f := fun i => inst.wts (i-1) * inflow inst.n s i k)
      (fun i hi => ?_) (Finset.mem_Icc.mpr ⟨hj1, hjn⟩)
    obtain ⟨h1, hn⟩ := Finset.mem_Icc.mp hi
    exact mul_nonneg (posw (i-1) (by omega)).le
      (inflow_nonneg hF (by omega) hk)
  linarith

lemma used_of_load_pos (hF : Feasible inst tt s)
    (hsid : ServesImpliesDeparts inst s) {k : ℕ} (hk : k < inst.K)
    (hl : 0 < loadOf inst s k) : usedB inst.n s.x k = true := by
  by_contra hnu
  have hnd : ¬ ∃ j < inst.n+1, 1 ≤ j ∧ (1:ℚ)/2 < s.x 0 j k := by
    rintro ⟨j, hjlt, hj1, harc⟩
    exact hnu (usedB_iff.mpr ⟨j, hj1, by omega, harc⟩)
  have hns : ¬ ∃ i < inst.n+1, 1 ≤ i ∧ ∃ j < inst.n+1, j ≠ i ∧
      (1:ℚ)/2 < s.x j i k := fun h => hnd (hsid k hk h)
  push_neg at hns
  have hzero : loadOf inst s k = 0 := by
    refine Finset.sum_eq_zero fun i hi => ?_
    obtain ⟨h1, hn⟩ := Finset.mem_Icc.mp hi
    have hinfl : inflow inst.n s i k = 0 := by
      refine Finset.sum_eq_zero fun j hj => ?_
      by_cases hji : j = i
      · simp [hji]
      · rw [if_neg hji]
        have hj' := Finset.mem_range.mp hj
        rcases hF.xbin j hj' i (by omega) k hk hji with h0 | h1'
        · exact h0
        · exfalso
          have := hns i (by omega) h1 j hj' hji
          rw [h1'] at this; norm_num at this
    rw [hinfl, mul_zero]
  rw [hzero] at hl
  norm_num at hl

lemma dur_pos_of_used (hF : Feasible inst tt s)
    (hdur : ∀ k < inst.K, ∀ j < inst.n+1, 1 ≤ j → (1:ℚ)/2 < s.x j 0 k →
      0 < s.y j k + inst.service j + tt j 0)
    {k : ℕ} (hk : k < inst.K) (hu : usedB inst.n s.x k = true) :
    0 < durOf inst tt s k := by
  obtain ⟨j, hj1, hjn, hclose⟩ := closing_arc_of_used hF hk (usedB_iff.mp hu)
  have hpos := hdur k hk j (by omega) hj1 hclose
  have hge := le_foldl_max_of_mem (fun j' => (1:ℚ)/2 < s.x j' 0 k)
    (fun j' => s.y j' k + inst.service j' + tt j' 0)
    (List.range' 1 inst.n)
    (List.mem_range'_1.mpr ⟨hj1, by omega⟩) hclose 0
  exact lt_of_lt_of_le hpos hge

lemma used_of_dur_pos (hF : Feasible inst tt s) {k : ℕ} (hk : k < inst.K)
    (hd : 0 < durOf inst tt s k) : usedB inst.n s.x k = true := by
  by_cases hc : ∃ j, 1 ≤ j ∧ j ≤ inst.n ∧ (1:ℚ)/2 < s.x j 0 k
  · exact usedB_iff.mpr (used_of_closing_arc hF hk hc)
  · exfalso
    push_neg at hc
    have hzero := foldl_max_eq_of_none (fun j' => (1:ℚ)/2 < s.x j' 0 k)
      (fun j' => s.y j' k + inst.service j' + tt j' 0)
      (List.range' 1 inst.n)
      (fun j hj => by
        obtain ⟨h1, h2⟩ := List.mem_range'_1.mp hj
        exact not_lt.mpr (hc j h1 (by omega))) 0
    have : durOf inst tt s k = 0 := hzero
    rw [this] at hd
    norm_num at hd

end Alignment

/-- Claim C10 (amended): for a feasible assignment with positive demand
weights, positive closing-leg durations, and no depot-free subtours,
the four reported lists all enumerate exactly the used vehicles in
increasing vehicle order, so they have equal lengths and their i-th
entries all describe the same vehicle. -/
theorem C10_lists_aligned (inst : Inst) (tt : ℕ → ℕ → ℚ) (s : Sol)
    (hF : Feasible inst tt s)
    (posw : ∀ i < inst.n, 0 < inst.wts i)
    (hdur : ∀ k < inst.K, ∀ j < inst.n+1, 1 ≤ j → (1:ℚ)/2 < s.x j 0 k →
      0 < s.y j k + inst.service j + tt j 0)
    (hsid : ServesImpliesDeparts inst s) :
    ∃ ks : List ℕ,
      ks = (List.range inst.K).filter (usedB inst.n s.x) ∧
      List.Pairwise (· < ·) ks ∧
      routes inst s = ks.map (fun k => (routeTimes inst s k).1) ∧
      starting_times inst s = ks.map (fun k => (routeTimes inst s k).2) ∧
      vehicle_loads inst s = ks.map (loadOf inst s) ∧
      route_durations inst tt s = ks.map (durOf inst tt s) ∧
      (routes inst s).length = (starting_times inst s).length ∧
      (routes inst s).length = (vehicle_loads inst s).length ∧
      (routes inst s).length = (route_durations inst tt s).length := by
  have hloadfilter :
      (List.range inst.K).filter (fun k => decide (0 < loadOf inst s k)) =
        (List.range inst.K).filter (usedB inst.n s.x) := by
    refine List.filter_congr fun k hkr => ?_
    have hk := List.mem_range.mp hkr
    by_cases hu : usedB inst.n s.x k = true
    · rw [hu, decide_eq_true (load_pos_of_used hF posw hk hu)]
    · have hu' : usedB inst.n s.x k = false := Bool.eq_false_iff.mpr hu
      rw [hu', decide_eq_false ?_]
      intro hl
      exact hu (used_of_load_pos hF hsid hk hl)
  have hdurfilter :
      (List.range inst.K).filter (fun k => decide (0 < durOf inst tt s k)) =
        (List.range inst.K).filter (usedB inst.n s.x) := by
    refine List.filter_congr fun k hkr => ?_
    have hk := List.mem_range.mp hkr
    by_cases hu : usedB inst.n s.x k = true
    · rw [hu, decide_eq_true (dur_pos_of_used hF hdur hk hu)]
    · have hu' : usedB inst.n s.x k = false := Bool.eq_false_iff.mpr hu
      rw [hu', decide_eq_false ?_]
      intro hd
      exact hu (used_of_dur_pos hF hk hd)
  refine ⟨(List.range inst.K).filter (usedB inst.n s.x), rfl, ?_, rfl, rfl,
    ?_, ?_, ?_, ?_, ?_⟩
  · exact (List.pairwise_lt_range inst.K).filter _
  · unfold vehicle_loads
    rw [hloadfilter]
  · unfold route_durations
    rw [hdurfilter]
  · simp [routes, starting_times]
  · unfold routes vehicle_loads
    rw [hloadfilter]
    simp
  · unfold routes route_durations
    rw [hdurfilter]
    simp

/-! ## Claim C1 -/

/-- Claim C1: for every solve that terminates with status OPTIMAL (so the
returned variable values satisfy all model constraints), every route in
the returned record is a non-empty node sequence whose first and last
elements are the depot index 0. -/
theorem C1_routes_closed (inst : Inst) (tt : ℕ → ℕ → ℚ) (s : Sol)
    (hF : Feasible inst tt s) :
    ∀ r ∈ routes inst s, r ≠ [] ∧ r.head? = some 0 ∧ r.getLast? = some 0 := by
  intro r hr
  obtain ⟨k, hkmem, rfl⟩ := List.mem_map.mp hr
  obtain ⟨hkr, hku⟩ := List.mem_filter.mp hkmem
  exact route_closed_of_used hF (List.mem_range.mp hkr) hku

/-! ## Claim C5 -/

/-- Claim C5 (amended): when route reconstruction reaches a node with no
qualifying outgoing arc, the loop simply stops and keeps the route built
so far; the record returned on OPTIMAL always carries status "Optimal"
and the routes list as produced, with no field reporting a degenerate
extraction. -/
theorem C5_truncation_silent :
    (∀ (n : ℕ) (xv : ℕ → ℕ → ℕ → ℚ) (yv : ℕ → ℕ → ℚ) (k cur fuel : ℕ),
      nextNode n xv k cur = none →
      extendRoute n xv yv k (fuel+1) cur = ([], [])) ∧
    (∀ (inst : Inst) (tt : ℕ → ℕ → ℚ) (s : Sol),
      ("status", Val.str "Optimal") ∈ solutionInfoFinal inst tt s 2 ∧
      ("routes", Val.routesV (routes inst s)) ∈
        solutionInfoFinal inst tt s 2) := by
  constructor
  · intro n xv yv k cur fuel h
    simp [extendRoute, h]
  · intro inst tt s
    constructor <;> simp [solutionInfoFinal, optimalEntries]

/-! ## Concrete instances and assignments

`tt0` is the travel-time matrix of an instance whose nodes all share one
coordinate (every Euclidean distance is zero, exactly representable). -/

def tt0 : ℕ → ℕ → ℚ := fun _ _ => 0

lemma travel_time_obj_tt0 (inst : Inst) (s : Sol) :
    travel_time_obj inst tt0 s = 0 := by
  simp [travel_time_obj, tt0]

/-- Witness instance: three colocated customers, two vehicles, the
restriction triple `(1,2,3)`. -/
def wInst : Inst where
  n := 3
  wts := fun _ => 1
  service := fun _ => 0
  K := 2
  cap := 3
  tmax := 10
  tw := fun _ => (0, 10)
  restricted := [(1, 2, 3)]

/-- Optimal assignment for `wInst`: vehicle 0 runs `0 → 1 → 2 → 0`,
vehicle 1 runs `0 → 3 → 0`. -/
def wSol : Sol where
  x := fun i j k =>
    if (i, j, k) ∈ [((0:ℕ), (1:ℕ), (0:ℕ)), (1, 2, 0), (2, 0, 0),
                    (0, 3, 1), (3, 0, 1)] then 1 else 0
  y := fun _ _ => 0
  d := fun _ _ => 0
  z := fun i k => if (i, k) ∈ [((1:ℕ), (0:ℕ)), (2, 0), (3, 1)] then 1 else 0

lemma wSol_feasible : Feasible wInst tt0 wSol := by
  constructor <;>
    (norm_num [wInst, wSol, tt0, inflow, outflow, depotOut, depotIn, bigM,
      Nat.forall_lt_succ, Finset.sum_range_succ, Finset.sum_Icc_succ_top,
      Finset.Icc_self, Finset.sum_singleton] <;> decide)

/-- Witness instance with one customer of service time 5 (so the closing
leg has positive duration). -/
def instW2 : Inst where
  n := 1
  wts := fun _ => 1
  service := fun i => if i = 1 then 5 else 0
  K := 1
  cap := 10
  tmax := 100
  tw := fun _ => (0, 100)
  restricted := []

/-- Optimal assignment for `instW2`: the single vehicle runs
`0 → 1 → 0`; `d[1,0]` sits at its lower bound `5`. -/
def solW2 : Sol where
  x := fun i j k =>
    if i = 0 ∧ j = 1 ∧ k = 0 then 1
    else if i = 1 ∧ j = 0 ∧ k = 0 then 1 else 0
  y := fun _ _ => 0
  d := fun j k => if j = 1 ∧ k = 0 then 5 else 0
  z := fun i k => if i = 1 ∧ k = 0 then 1 else 0

lemma solW2_feasible : Feasible instW2 tt0 solW2 := by
  constructor <;>
    (norm_num [instW2, solW2, tt0, inflow, outflow, depotOut, depotIn, bigM,
      Nat.forall_lt_succ, Finset.sum_range_succ, Finset.sum_Icc_succ_top,
      Finset.Icc_self, Finset.sum_singleton] <;> decide)

/-- Counterexample instance for C4: one customer with time window
`[1, 10]`, so the closing leg has value `1`, while `d[1,0] = 2` is also
feasible (nothing in the model forces `d` down to its lower bound). -/
def inst1 : Inst where
  n := 1
  wts := fun _ => 1
  service := fun _ => 0
  K := 1
  cap := 1
  tmax := 10
  tw := fun _ => (1, 10)
  restricted := []

/-- Optimal assignment for `inst1` with a loose `d` value. -/
def sol1 : Sol where
  x := fun i j k =>
    if i = 0 ∧ j = 1 ∧ k = 0 then 1
    else if i = 1 ∧ j = 0 ∧ k = 0 then 1 else 0
  y := fun i k => if i = 1 ∧ k = 0 then 1 else 0
  d := fun j k => if j = 1 ∧ k = 0 then 2 else 0
  z := fun i k => if i = 1 ∧ k = 0 then 1 else 0

lemma sol1_feasible : Feasible inst1 tt0 sol1 := by
  constructor <;>
    (norm_num [inst1, sol1, tt0, inflow, outflow, depotOut, depotIn, bigM,
      Nat.forall_lt_succ, Finset.sum_range_succ, Finset.sum_Icc_succ_top,
      Finset.Icc_self, Finset.sum_singleton] <;> decide)

/-- Degenerate solver output for C5: the arc `0 → 1` is selected but
node 1 has no outgoing arc above threshold, so the reconstruction
dead-ends. -/
def instD : Inst where
  n := 1
  wts := fun _ => 1
  service := fun _ => 0
  K := 1
  cap := 1
  tmax := 1
  tw := fun _ => (0, 1)
  restricted := []

def solD : Sol where
  x := fun i j k => if i = 0 ∧ j = 1 ∧ k = 0 then 1 else 0
  y := fun _ _ => 0
  d := fun _ _ => 0
  z := fun _ _ => 0

/-- Failing instance for C3: zero customers.  The model is trivially
satisfiable (OPTIMAL) and no vehicle is used, so `len(routes) *
vehicle_capacity = 0`. -/
def inst0 : Inst where
  n := 0
  wts := fun _ => 1
  service := fun _ => 0
  K := 1
  cap := 5
  tmax := 1
  tw := fun _ => (0, 1)
  restricted := []

def sol0 : Sol where
  x := fun _ _ _ => 0
  y := fun _ _ => 0
  d := fun _ _ => 0
  z := fun _ _ => 0

lemma sol0_feasible : Feasible inst0 tt0 sol0 := by
  constructor <;>
    norm_num [inst0, sol0, tt0, inflow, outflow, depotOut, depotIn, bigM,
      Nat.forall_lt_succ, Finset.sum_range_succ,
      (show (Finset.Icc 1 0 : Finset ℕ) = ∅ by decide)]

/-- Counterexample instance for C8: one customer, two vehicles.  Vehicle
1 stays unused — feasible for `FINAL_project`, infeasible for `module4`
whose forced-use constraint demands one departure per vehicle. -/
def instC8 : Inst where
  n := 1
  wts := fun _ => 1
  service := fun _ => 0
  K := 2
  cap := 1
  tmax := 1
  tw := fun _ => (0, 1)
  restricted := []

def solC8 : Sol where
  x := fun i j k =>
    if i = 0 ∧ j = 1 ∧ k = 0 then 1
    else if i = 1 ∧ j = 0 ∧ k = 0 then 1 else 0
  y := fun _ _ => 0
  d := fun _ _ => 0
  z := fun i k => if i = 1 ∧ k = 0 then 1 else 0

lemma solC8_feasible : Feasible instC8 tt0 solC8 := by
  constructor <;>
    (norm_num [instC8, solC8, tt0, inflow, outflow, depotOut, depotIn, bigM,
      Nat.forall_lt_succ, Finset.sum_range_succ, Finset.sum_Icc_succ_top,
      Finset.Icc_self, Finset.sum_singleton] <;> decide)

/-- Witness instance for the `module4` side of C8: two customers, two
vehicles, each vehicle serving one customer. -/
def instW4 : Inst where
  n := 2
  wts := fun _ => 1
  service := fun _ => 0
  K := 2
  cap := 1
  tmax := 1
  tw := fun _ => (0, 1)
  restricted := []

def solW4 : Sol where
  x := fun i j k =>
    if (i, j, k) ∈ [((0:ℕ), (1:ℕ), (0:ℕ)), (1, 0, 0), (0, 2, 1), (2, 0, 1)]
    then 1 else 0
  y := fun _ _ => 0
  d := fun _ _ => 0
  z := fun i k => if (i, k) ∈ [((1:ℕ), (0:ℕ)), (2, 1)] then 1 else 0

lemma solW4_feasible4 :
    Feasible4 instW4 tt0 solW4 (fun _ => 0) 0 (fun _ => 0) := by
  refine ⟨?_, ?_, ?_, ?_, ?_, ?_, ?_, ?_, ?_⟩
  · constructor <;>
      (norm_num [instW4, solW4, tt0, inflow, outflow, depotOut, depotIn, bigM,
        Nat.forall_lt_succ, Finset.sum_range_succ, Finset.sum_Icc_succ_top,
        Finset.Icc_self, Finset.sum_singleton] <;> decide)
  all_goals
    (norm_num [instW4, solW4, tt0, depotOut, Nat.forall_lt_succ,
      Finset.sum_range_succ, Finset.sum_Icc_succ_top, Finset.Icc_self,
      Finset.sum_singleton] <;> try decide)

/-- Counterexample instance for C10: customer 1 served by vehicle 0
(service time 10), customers 2 and 3 colocated and served by a
depot-free zero-length subtour of vehicle 1. -/
def instC10 : Inst where
  n := 3
  wts := fun _ => 1
  service := fun i => if i = 1 then 10 else 0
  K := 2
  cap := 10
  tmax := 100
  tw := fun _ => (0, 100)
  restricted := []

def solC10 : Sol where
  x := fun i j k =>
    if (i, j, k) ∈ [((0:ℕ), (1:ℕ), (0:ℕ)), (1, 0, 0), (2, 3, 1), (3, 2, 1)]
    then 1 else 0
  y := fun _ _ => 0
  d := fun j k => if j = 1 ∧ k = 0 then 10 else 0
  z := fun i k => if (i, k) ∈ [((1:ℕ), (0:ℕ)), (2, 1), (3, 1)] then 1 else 0

lemma solC10_feasible : Feasible instC10 tt0 solC10 := by
  constructor <;>
    (norm_num [instC10, solC10, tt0, inflow, outflow, depotOut, depotIn, bigM,
      Nat.forall_lt_succ, Finset.sum_range_succ, Finset.sum_Icc_succ_top,
      Finset.Icc_self, Finset.sum_singleton] <;> decide)

/-! ## Witnesses and counterexamples -/

lemma wRoutes_eval : routes wInst wSol = [[0, 1, 2, 0], [0, 3, 0]] := by
  norm_num [routes, routeTimes, usedB, extendRoute, nextNode, wInst, wSol,
    List.range', List.range_succ, List.find?, List.filter]

/-- Witness for C1 at a concrete optimal assignment of `wInst`. -/
theorem C1_routes_closed_witness :
    Feasible wInst tt0 wSol ∧
    ([0, 1, 2, 0] : List ℕ) ∈ routes wInst wSol ∧
    (([0, 1, 2, 0] : List ℕ) ≠ [] ∧ ([0, 1, 2, 0] : List ℕ).head? = some 0 ∧
      ([0, 1, 2, 0] : List ℕ).getLast? = some 0) :=
  ⟨wSol_feasible, by rw [wRoutes_eval]; exact List.mem_cons_self _ _,
   C1_routes_closed wInst tt0 wSol wSol_feasible [0, 1, 2, 0]
     (by rw [wRoutes_eval]; exact List.mem_cons_self _ _)⟩

/-- Witness for C2 at the restriction triple `(1,2,3)` of `wInst`. -/
theorem C2_restriction_enforced_witness :
    Feasible wInst tt0 wSol ∧
    ((1, 2, 3) : ℕ × ℕ × ℕ) ∈ wInst.restricted ∧ (0:ℕ) < wInst.K ∧
    wSol.z 1 0 + wSol.z 2 0 + wSol.z 3 0 ≤ 2 ∧
    ¬ (wSol.z 1 0 = 1 ∧ wSol.z 2 0 = 1 ∧ wSol.z 3 0 = 1) := by
  have h := C2_restriction_enforced wInst tt0 wSol wSol_feasible (1, 2, 3)
    (by norm_num [wInst]) 0 (by norm_num [wInst])
  exact ⟨wSol_feasible, by norm_num [wInst], by norm_num [wInst], h.1, h.2.1⟩

/-- Claim C3: at the zero-customer instance the solve is feasible (hence
can terminate OPTIMAL), no vehicle is used, and the record's
`capacity_utilization` entry is computed with the denominator
`len(routes) * vehicle_capacity = 0` — there is no guard, so the Python
source raises `ZeroDivisionError` here instead of returning. -/
theorem C3_zero_vehicles_unguarded :
    Feasible inst0 tt0 sol0 ∧
    travel_time_obj inst0 tt0 sol0 = 0 ∧
    routes inst0 sol0 = [] ∧
    utilDenom inst0 sol0 = 0 ∧
    ("capacity_utilization",
      Val.num ((vehicle_loads inst0 sol0).sum / utilDenom inst0 sol0)) ∈
      solutionInfoFinal inst0 tt0 sol0 2 := by
  have hr : routes inst0 sol0 = [] := by
    norm_num [routes, usedB, inst0, sol0, List.range', List.range_succ,
      List.filter]
  refine ⟨sol0_feasible, travel_time_obj_tt0 inst0 sol0, hr, ?_, ?_⟩
  · norm_num [utilDenom, hr]
  · simp [solutionInfoFinal, optimalEntries]

/-- Counterexample for C4: at the optimal assignment `sol1` of `inst1`
(the travel-time objective is identically `0` on this instance, so every
feasible assignment is optimal), the record reports duration `1`,
computed from `y`, while the decision variable `d[1,0]` holds `2`. -/
theorem C4_duration_counterexample :
    Feasible inst1 tt0 sol1 ∧
    travel_time_obj inst1 tt0 sol1 = 0 ∧
    (1:ℚ)/2 < sol1.x 1 0 0 ∧
    durOf inst1 tt0 sol1 0 = 1 ∧
    route_durations inst1 tt0 sol1 = [1] ∧
    sol1.d 1 0 = 2 ∧
    durOf inst1 tt0 sol1 0 ≠ sol1.d 1 0 := by
  have hd : durOf inst1 tt0 sol1 0 = 1 := by
    norm_num [durOf, inst1, sol1, tt0, List.range', List.foldl, max_def]
  refine ⟨sol1_feasible, travel_time_obj_tt0 inst1 sol1,
    by norm_num [sol1], hd, ?_, by norm_num [sol1], ?_⟩
  · norm_num [route_durations, hd, durOf, inst1, sol1, tt0, List.range',
      List.foldl, List.filter, List.range_succ, max_def]
  · rw [hd]; norm_num [sol1]

/-- Witness for the amended C4 at `instW2`. -/
theorem C4_duration_from_y_witness :
    Feasible instW2 tt0 solW2 ∧ (1:ℚ)/2 < solW2.x 1 0 0 ∧
    durOf instW2 tt0 solW2 0 =
      max 0 (solW2.y 1 0 + instW2.service 1 + tt0 1 0) ∧
    solW2.y 1 0 + instW2.service 1 + tt0 1 0 ≤ solW2.d 1 0 := by
  have h := C4_duration_from_y instW2 tt0 solW2 solW2_feasible 0
    (by norm_num [instW2]) 1 (by norm_num) (by norm_num [instW2])
    (by norm_num [solW2])
  exact ⟨solW2_feasible, by norm_num [solW2], h.2.1, h.2.2⟩

/-- Counterexample for C5: the solver output `solD` dead-ends at node 1;
the extractor silently keeps the truncated route `[0, 1]` (which does
not end at the depot) in a record whose status is still "Optimal", with
no report of the degeneracy. -/
theorem C5_silent_truncation_counterexample :
    nextNode instD.n solD.x 0 1 = none ∧
    routes instD solD = [[0, 1]] ∧
    ([0, 1] : List ℕ).getLast? ≠ some 0 ∧
    ("status", Val.str "Optimal") ∈ solutionInfoFinal instD tt0 solD 2 ∧
    ("routes", Val.routesV [[0, 1]]) ∈ solutionInfoFinal instD tt0 solD 2 := by
  have hr : routes instD solD = [[0, 1]] := by
    norm_num [routes, routeTimes, usedB, extendRoute, nextNode, instD, solD,
      List.range', List.range_succ, List.find?, List.filter]
  refine ⟨?_, hr, by decide, ?_, ?_⟩
  · norm_num [nextNode, instD, solD, List.range_succ, List.find?]
  · simp [solutionInfoFinal, optimalEntries]
  · simp [solutionInfoFinal, optimalEntries, hr]

/-- Witness for the amended C5 at the dead-end state of `solD`. -/
theorem C5_truncation_silent_witness :
    nextNode instD.n solD.x 0 1 = none ∧
    extendRoute instD.n solD.x solD.y 0 2 1 = ([], []) := by
  have hn : nextNode instD.n solD.x 0 1 = none := by
    norm_num [nextNode, instD, solD, List.range_succ, List.find?]
  exact ⟨hn, C5_truncation_silent.1 instD.n solD.x solD.y 0 1 1 hn⟩

/-- Witness for C6 at the INFEASIBLE status code `3`. -/
theorem C6_failure_record_witness :
    (3:ℤ) ≠ 2 ∧
    solutionInfoFinal wInst tt0 wSol 3 =
      [("status", Val.str "No optimal solution found"),
       ("model_status", Val.int 3)] :=
  ⟨by decide, (C6_failure_record wInst tt0 wSol 0 (fun _ => 0) 3 (by decide)).1⟩

/-- Witness for C7 at `wInst`. -/
theorem C7_bigM_formula_witness :
    Feasible wInst tt0 wSol ∧
    bigM wInst.n tt0 wInst.service =
      2 * (∑ i in Finset.range (wInst.n+1), ∑ j in Finset.range (wInst.n+1),
            if i = j then 0 else tt0 i j)
      + 2 * ∑ i in Finset.range (wInst.n+1), wInst.service i :=
  ⟨wSol_feasible, (C7_bigM_formula wInst tt0 wSol wSol_feasible).1⟩

/-- Counterexample for C8: `solC8` leaves vehicle 1 unused and satisfies
every constraint of the `FINAL_project` model, but no choice of the
balancing variables makes it feasible for the `module4` model, whose
forced-use constraint requires `depotOut = 1` for every vehicle. -/
theorem C8_forced_use_counterexample :
    Feasible instC8 tt0 solC8 ∧
    depotOut instC8.n solC8 1 = 0 ∧
    ¬ ∃ (T : ℕ → ℚ) (Tavg : ℚ) (dv : ℕ → ℚ),
        Feasible4 instC8 tt0 solC8 T Tavg dv := by
  have hdep : depotOut instC8.n solC8 1 = 0 := by
    norm_num [depotOut, instC8, solC8, Finset.Icc_self, Finset.sum_singleton]
  refine ⟨solC8_feasible, hdep, ?_⟩
  rintro ⟨T, Ta, dv, h4⟩
  have h := h4.forced 1 (by norm_num [instC8])
  rw [hdep] at h
  norm_num at h

/-- Witness for the amended C8: the unused vehicle of `solC8` on the
`FINAL_project` side, and a fully used fleet on the `module4` side. -/
theorem C8_depot_flow_amended_witness :
    Feasible instC8 tt0 solC8 ∧
    (depotOut instC8.n solC8 1 = depotIn instC8.n solC8 1 ∧
      depotOut instC8.n solC8 1 ≤ 1) ∧
    Feasible4 instW4 tt0 solW4 (fun _ => 0) 0 (fun _ => 0) ∧
    (depotOut instW4.n solW4 0 = depotIn instW4.n solW4 0 ∧
      depotOut instW4.n solW4 0 = 1) :=
  ⟨solC8_feasible,
   C8_depot_flow_amended.1 instC8 tt0 solC8 solC8_feasible 1
     (by norm_num [instC8]),
   solW4_feasible4,
   C8_depot_flow_amended.2 instW4 tt0 solW4 _ _ _ solW4_feasible4 0
     (by norm_num [instW4])⟩

/-- Counterexample for C9: two solve calls whose inputs differ in every
dimension (vehicle count, customer count, capacities, windows) yield the
identical hardcoded objective configuration — priorities `[1, 0]` and
relative tolerances `[0.05, 0]` — so neither the priority ordering nor
the tolerance is taken from the inputs. -/
theorem C9_objective_constants_counterexample :
    instD.K ≠ wInst.K ∧ instD.n ≠ wInst.n ∧
    module4Objectives instD = module4Objectives wInst ∧
    (module4Objectives instD).map ObjSpec.priority = [1, 0] ∧
    (module4Objectives instD).map ObjSpec.reltol = [5/100, 0] :=
  ⟨by norm_num [instD, wInst], by norm_num [instD, wInst], rfl, rfl, rfl⟩

/-- Counterexample for C10: at the optimal assignment `solC10` (the
travel-time objective is identically `0` on this colocated instance) all
demand weights are positive and every closing leg has positive duration,
yet `routes` has one entry while `vehicle_loads` has two: the depot-free
subtour of vehicle 1 produces a load but no route. -/
theorem C10_misaligned_counterexample :
    Feasible instC10 tt0 solC10 ∧
    travel_time_obj instC10 tt0 solC10 = 0 ∧
    (∀ i < instC10.n, 0 < instC10.wts i) ∧
    (∀ k < instC10.K, ∀ j < instC10.n+1, 1 ≤ j →
      (1:ℚ)/2 < solC10.x j 0 k →
      0 < solC10.y j k + instC10.service j + tt0 j 0) ∧
    routes instC10 solC10 = [[0, 1, 0]] ∧
    vehicle_loads instC10 solC10 = [1, 2] ∧
    (routes instC10 solC10).length ≠ (vehicle_loads instC10 solC10).length := by
  have hr : routes instC10 solC10 = [[0, 1, 0]] := by
    norm_num [routes, routeTimes, usedB, extendRoute, nextNode, instC10,
      solC10, List.range', List.range_succ, List.find?, List.filter]
  have hl : vehicle_loads instC10 solC10 = [1, 2] := by
    norm_num [vehicle_loads, loadOf, inflow, instC10, solC10, List.range',
      List.range_succ, List.filter, Finset.sum_range_succ,
      Finset.sum_Icc_succ_top, Finset.Icc_self, Finset.sum_singleton]
  refine ⟨solC10_feasible, travel_time_obj_tt0 instC10 solC10, ?_, ?_, hr, hl,
    ?_⟩
  · norm_num [instC10, Nat.forall_lt_succ]
  · norm_num [instC10, solC10, tt0, Nat.forall_lt_succ]
  · rw [hr, hl]
    norm_num

/-- Witness for the amended C10 at `instW2`. -/
theorem C10_lists_aligned_witness :
    Feasible instW2 tt0 solW2 ∧
    (∀ i < instW2.n, 0 < instW2.wts i) ∧
    (∀ k < instW2.K, ∀ j < instW2.n+1, 1 ≤ j → (1:ℚ)/2 < solW2.x j 0 k →
      0 < solW2.y j k + instW2.service j + tt0 j 0) ∧
    ServesImpliesDeparts instW2 solW2 ∧
    (∃ ks : List ℕ,
      ks = (List.range instW2.K).filter (usedB instW2.n solW2.x) ∧
      List.Pairwise (· < ·) ks ∧
      routes instW2 solW2 = ks.map (fun k => (routeTimes instW2 solW2 k).1) ∧
      starting_times instW2 solW2 =
        ks.map (fun k => (routeTimes instW2 solW2 k).2) ∧
      vehicle_loads instW2 solW2 = ks.map (loadOf instW2 solW2) ∧
      route_durations instW2 tt0 solW2 = ks.map (durOf instW2 tt0 solW2) ∧
      (routes instW2 solW2).length = (starting_times instW2 solW2).length ∧
      (routes instW2 solW2).length = (vehicle_loads instW2 solW2).length ∧
      (routes instW2 solW2).length =
        (route_durations instW2 tt0 solW2).length) := by
  have h1 : ∀ i < instW2.n, 0 < instW2.wts i := by norm_num [instW2]
  have h2 : ∀ k < instW2.K, ∀ j < instW2.n+1, 1 ≤ j →
      (1:ℚ)/2 < solW2.x j 0 k →
      0 < solW2.y j k + instW2.service j + tt0 j 0 := by
    norm_num [instW2, solW2, tt0, Nat.forall_lt_succ]
  have h3 : ServesImpliesDeparts instW2 solW2 := by
    intro k hk
    have hk0 : k = 0 := by
      have : k < 1 := hk
      omega
    subst hk0
    intro _h
    exact ⟨1, by norm_num [instW2], le_refl 1, by norm_num [solW2]⟩
  exact ⟨solW2_feasible, h1, h2, h3,
    C10_lists_aligned instW2 tt0 solW2 solW2_feasible h1 h2 h3⟩

end VRP
